import Mathlib

/-!
Verification development for the seerr-bot repository.

Shallow embedding of the agent tool-orchestration loop
(`src/agent/index.ts`), the session store (`src/sessions.ts`), the
Discord adapter's poster-section parsing and text chunking
(`src/index.ts`), and the tool formatting helpers
(`src/agent/index.ts`, `src/utils.ts`, `src/agent/tools/*.ts`).

External effects (the language-model completion endpoint, the Seerr
catalog client, the clock) are modelled as explicit oracle parameters;
the completion endpoint is an oracle indexed by call number that either
returns a model response or fails (the transport throw).  The unbounded
`while` loop of `processMediaRequest` is given a fuel parameter: a
`none` result means the loop was still running after `fuel` further
round trips.
-/

namespace SeerrBot

/-! ## Agent loop (src/agent/index.ts, `processMediaRequest`) -/

/-- Stop reason of a model response.  The source only tests
`stop_reason === "tool_use"`; `endTurn` stands for any other stop
reason. -/
inductive StopReason
  | toolUse
  | endTurn
  deriving DecidableEq, Repr

/-- A content block of a model response: a text block or a tool-use
block (invocation id, tool name, opaque serialized input). -/
inductive ContentBlock
  | text (s : String)
  | toolUse (id : String) (name : String) (input : String)
  deriving DecidableEq, Repr

structure ModelResponse where
  stopReason : StopReason
  content : List ContentBlock
  deriving DecidableEq, Repr

/-- A conversation turn.  `toolResults` is the user-role turn carrying
`tool_result` blocks, each pairing a `tool_use_id` with the tool's
textual result. -/
inductive Message
  | user (s : String)
  | assistant (content : List ContentBlock)
  | toolResults (results : List (String × String))
  deriving DecidableEq, Repr

/-- The fixed user-facing apology returned by the `catch` branch of
`processMediaRequest`. -/
def apologyText : String :=
  "Sorry, I encountered an error processing your request. Please try again."

structure AgentResponse where
  result : String
  messages : List Message
  deriving DecidableEq, Repr

/-- The tool-result blocks built from the tool-use blocks of a model
response, in emission order (`handleToolCall` never throws: it catches
internally and returns text, so the executor is a total function). -/
def toolResultsOf (toolExec : String → String → String)
    (content : List ContentBlock) : List (String × String) :=
  content.filterMap fun b =>
    match b with
    | .toolUse id name input => some (id, toolExec name input)
    | _ => none

/-- The final text of a terminal response:
`textBlocks.map(b => b.text).join("\n") || "No response"`. -/
def finalTextOf (content : List ContentBlock) : String :=
  let s := String.intercalate "\n" (content.filterMap fun b =>
    match b with
    | .text t => some t
    | _ => none)
  if s = "" then "No response" else s

/-- The two turns appended per loop iteration: the assistant turn with
the model's content, then the user turn carrying the tool results. -/
def iterPair (toolExec : String → String → String)
    (resp : ModelResponse) : List Message :=
  [Message.assistant resp.content,
   Message.toolResults (toolResultsOf toolExec resp.content)]

/-- The `while (response.stop_reason === "tool_use")` loop.  `endpoint n`
is the outcome of the n-th further completion call (`Except.error` is a
transport throw, caught by the surrounding `catch` which returns the
apology with the messages accumulated so far).  `none` means the loop
was still running after `fuel` iterations. -/
def runLoop (toolExec : String → String → String) :
    Nat → (Nat → Except Unit ModelResponse) → List Message → ModelResponse →
      Option AgentResponse
  | 0, endpoint, messages, response =>
    match response.stopReason with
    | .toolUse =>
      let messages' := messages ++ iterPair toolExec response
      match endpoint 0 with
      | .error _ => some ⟨apologyText, messages'⟩
      | .ok _ => none
    | .endTurn =>
      some ⟨finalTextOf response.content,
        messages ++ [Message.assistant response.content]⟩
  | fuel + 1, endpoint, messages, response =>
    match response.stopReason with
    | .toolUse =>
      let messages' := messages ++ iterPair toolExec response
      match endpoint 0 with
      | .error _ => some ⟨apologyText, messages'⟩
      | .ok response' =>
        runLoop toolExec fuel (fun n => endpoint (n + 1)) messages' response'
    | .endTurn =>
      some ⟨finalTextOf response.content,
        messages ++ [Message.assistant response.content]⟩

/-- The conversation the run starts from: the prior history (if any)
with the new user turn appended. -/
def initMessages (userMessage : String) (existing : Option (List Message)) :
    List Message :=
  match existing with
  | some ms => ms ++ [Message.user userMessage]
  | none => [Message.user userMessage]

/-- `processMediaRequest(userMessage, existingMessages)`:
append the user turn, call the completion endpoint, run the tool-use
loop.  A transport failure of any endpoint call returns the apology
together with the messages accumulated so far. -/
def processMediaRequest (toolExec : String → String → String)
    (endpoint : Nat → Except Unit ModelResponse) (fuel : Nat)
    (userMessage : String) (existing : Option (List Message)) :
    Option AgentResponse :=
  let messages := initMessages userMessage existing
  match endpoint 0 with
  | .error _ => some ⟨apologyText, messages⟩
  | .ok response => runLoop toolExec fuel (fun n => endpoint (n + 1)) messages response

/-- A model that requests a tool call on every completion call. -/
def pathologicalResponse : ModelResponse :=
  ⟨.toolUse, [ContentBlock.toolUse "toolu_01" "search_media" "query"]⟩

def pathologicalEndpoint : Nat → Except Unit ModelResponse :=
  fun _ => Except.ok pathologicalResponse

def stubToolExec : String → String → String :=
  fun _ _ => "tool result"

theorem runLoop_none_of_always_toolUse (toolExec : String → String → String) :
    ∀ (fuel : Nat) (endpoint : Nat → Except Unit ModelResponse)
      (messages : List Message) (response : ModelResponse),
      (∀ n, ∃ r, endpoint n = Except.ok r ∧ r.stopReason = StopReason.toolUse) →
      response.stopReason = StopReason.toolUse →
      runLoop toolExec fuel endpoint messages response = none := by
  intro fuel
  induction fuel with
  | zero =>
    intro endpoint messages response h hr
    obtain ⟨r, hok, _⟩ := h 0
    simp [runLoop, hr, hok]
  | succ fuel ih =>
    intro endpoint messages response h hr
    obtain ⟨r, hok, hrt⟩ := h 0
    simp only [runLoop, hr, hok]
    exact ih (fun n => endpoint (n + 1)) _ r (fun n => h (n + 1)) hrt

/-- C1 (amended): the loop in `processMediaRequest` has no iteration cap.
For every model that, on every completion-endpoint call, responds with a
tool-use request, the loop never terminates: after any number `fuel` of
round trips it is still running (result `none`), for every tool executor,
user message and prior history.  There is no 10-round-trip bound and no
fallback text. -/
theorem processMediaRequest_no_iteration_cap
    (toolExec : String → String → String)
    (endpoint : Nat → Except Unit ModelResponse)
    (h : ∀ n, ∃ r, endpoint n = Except.ok r ∧ r.stopReason = StopReason.toolUse)
    (fuel : Nat) (userMessage : String) (existing : Option (List Message)) :
    processMediaRequest toolExec endpoint fuel userMessage existing = none := by
  obtain ⟨r, hok, hrt⟩ := h 0
  simp only [processMediaRequest, hok]
  exact runLoop_none_of_always_toolUse toolExec fuel _ _ r (fun n => h (n + 1)) hrt

/-- C1 counterexample: with the pathological model that always requests a
tool call, the run is still inside the loop after 12 permitted round trips
(`none`), so it did not terminate after 10 round trips with a fallback
failure text as the claim states: there is no iteration cap in
`processMediaRequest`. -/
theorem processMediaRequest_cap_counterexample :
    processMediaRequest stubToolExec pathologicalEndpoint 12
      "request Inception" none = none := by
  rfl

/-- C1 witness: the no-cap theorem applied to the concrete pathological
endpoint at 30 round trips. -/
theorem processMediaRequest_no_iteration_cap_witness :
    processMediaRequest stubToolExec pathologicalEndpoint 30
      "request Inception" (some [Message.user "earlier turn"]) = none :=
  processMediaRequest_no_iteration_cap stubToolExec pathologicalEndpoint
    (fun _ => ⟨pathologicalResponse, rfl, rfl⟩) 30 "request Inception"
    (some [Message.user "earlier turn"])

theorem runLoop_failure_eq (toolExec : String → String → String) :
    ∀ (rs : List ModelResponse) (endpoint : Nat → Except Unit ModelResponse)
      (fuel : Nat) (messages : List Message) (response : ModelResponse),
      response.stopReason = StopReason.toolUse →
      (∀ i (hi : i < rs.length), endpoint i = Except.ok (rs.get ⟨i, hi⟩)) →
      (∀ r ∈ rs, r.stopReason = StopReason.toolUse) →
      endpoint rs.length = Except.error () →
      rs.length ≤ fuel →
      runLoop toolExec fuel endpoint messages response =
        some ⟨apologyText,
          (messages ++ iterPair toolExec response) ++
            (rs.map (iterPair toolExec)).flatten⟩ := by
  intro rs
  induction rs with
  | nil =>
    intro endpoint fuel messages response hr hok htool herr hfuel
    simp only [List.length_nil] at herr
    cases fuel with
    | zero => simp [runLoop, hr, herr]
    | succ f => simp [runLoop, hr, herr]
  | cons r rs ih =>
    intro endpoint fuel messages response hr hok htool herr hfuel
    have h0 : endpoint 0 = Except.ok r := by simpa using hok 0 (by simp)
    have hfuel' : rs.length + 1 ≤ fuel := by simpa using hfuel
    obtain ⟨fuel', rfl⟩ : ∃ f, fuel = f + 1 := by
      cases fuel with
      | zero => omega
      | succ f => exact ⟨f, rfl⟩
    simp only [runLoop, hr, h0]
    rw [ih (fun n => endpoint (n + 1)) fuel' _ r
        (htool r (by simp))
        (fun i hi => by simpa using hok (i + 1) (by simpa using Nat.succ_lt_succ hi))
        (fun x hx => htool x (by simp [hx]))
        (by simpa using herr) (by omega)]
    simp [List.append_assoc]

/-- C2: whenever a completion-endpoint call itself throws (the model
produced `rs` successive tool-use responses and the next call failed),
`processMediaRequest` returns the fixed apology string, and the returned
message state is exactly the conversation accumulated so far: the prior
messages, the new user turn, and the assistant/tool-result turn pair of
every completed iteration — not an empty reset. -/
theorem processMediaRequest_transport_failure
    (toolExec : String → String → String)
    (endpoint : Nat → Except Unit ModelResponse)
    (userMessage : String) (existing : Option (List Message))
    (rs : List ModelResponse) (fuel : Nat)
    (hok : ∀ i (hi : i < rs.length), endpoint i = Except.ok (rs.get ⟨i, hi⟩))
    (htool : ∀ r ∈ rs, r.stopReason = StopReason.toolUse)
    (herr : endpoint rs.length = Except.error ())
    (hfuel : rs.length ≤ fuel) :
    processMediaRequest toolExec endpoint fuel userMessage existing =
      some ⟨apologyText,
        initMessages userMessage existing ++ (rs.map (iterPair toolExec)).flatten⟩ := by
  cases rs with
  | nil =>
    simp only [List.length_nil] at herr
    simp [processMediaRequest, herr]
  | cons r rs =>
    have h0 : endpoint 0 = Except.ok r := by simpa using hok 0 (by simp)
    have hfuel' : rs.length + 1 ≤ fuel := by simpa using hfuel
    simp only [processMediaRequest, h0]
    rw [runLoop_failure_eq toolExec rs (fun n => endpoint (n + 1)) fuel _ r
        (htool r (by simp))
        (fun i hi => by simpa using hok (i + 1) (by simpa using Nat.succ_lt_succ hi))
        (fun x hx => htool x (by simp [hx]))
        (by simpa using herr) (by omega)]
    simp [List.append_assoc]

/-- The endpoint whose first call returns a tool-use response and whose
second call throws. -/
def failingEndpoint : Nat → Except Unit ModelResponse :=
  fun n => if n = 0 then Except.ok pathologicalResponse else Except.error ()

/-- C2 witness: the transport-failure theorem at a concrete run (one
tool-use iteration, then a failing call). -/
theorem processMediaRequest_transport_failure_witness :
    processMediaRequest stubToolExec failingEndpoint 3 "add The Bear"
        (some [Message.user "earlier turn"]) =
      some ⟨apologyText,
        initMessages "add The Bear" (some [Message.user "earlier turn"]) ++
          ([pathologicalResponse].map (iterPair stubToolExec)).flatten⟩ :=
  processMediaRequest_transport_failure stubToolExec failingEndpoint "add The Bear"
    (some [Message.user "earlier turn"]) [pathologicalResponse] 3
    (fun i hi => by
      have hi1 : i < 1 := by simpa using hi
      have : i = 0 := by omega
      subst this
      rfl)
    (fun r hr => by
      have : r = pathologicalResponse := by simpa using hr
      subst this
      rfl)
    rfl
    (by simp)

theorem runLoop_appends_only (toolExec : String → String → String) :
    ∀ (fuel : Nat) (endpoint : Nat → Except Unit ModelResponse)
      (messages : List Message) (response : ModelResponse) (r : AgentResponse),
      runLoop toolExec fuel endpoint messages response = some r →
      ∃ appended, r.messages = messages ++ appended := by
  intro fuel
  induction fuel with
  | zero =>
    intro endpoint messages response r h
    cases hr : response.stopReason with
    | toolUse =>
      simp only [runLoop, hr] at h
      cases he : endpoint 0 with
      | error e =>
        rw [he] at h
        simp only [Option.some.injEq] at h
        exact ⟨iterPair toolExec response, by rw [← h]⟩
      | ok resp => rw [he] at h; simp at h
    | endTurn =>
      simp only [runLoop, hr, Option.some.injEq] at h
      exact ⟨[Message.assistant response.content], by rw [← h]⟩
  | succ fuel ih =>
    intro endpoint messages response r h
    cases hr : response.stopReason with
    | toolUse =>
      simp only [runLoop, hr] at h
      cases he : endpoint 0 with
      | error e =>
        rw [he] at h
        simp only [Option.some.injEq] at h
        exact ⟨iterPair toolExec response, by rw [← h]⟩
      | ok resp =>
        rw [he] at h
        obtain ⟨app, happ⟩ := ih (fun n => endpoint (n + 1)) _ resp r h
        exact ⟨iterPair toolExec response ++ app, by rw [happ, List.append_assoc]⟩
    | endTurn =>
      simp only [runLoop, hr, Option.some.injEq] at h
      exact ⟨[Message.assistant response.content], by rw [← h]⟩

/-- C3: for every prior history and every endpoint behaviour, a returned
message list has the prior history followed by the new user turn as an
unmodified prefix: the loop only appends turns at the end, it never
removes or reorders prior turns. -/
theorem processMediaRequest_preserves_history
    (toolExec : String → String → String)
    (endpoint : Nat → Except Unit ModelResponse) (fuel : Nat)
    (userMessage : String) (prior : List Message) (r : AgentResponse)
    (h : processMediaRequest toolExec endpoint fuel userMessage (some prior) = some r) :
    ∃ appended, r.messages = (prior ++ [Message.user userMessage]) ++ appended := by
  simp only [processMediaRequest, initMessages] at h
  cases he : endpoint 0 with
  | error e =>
    rw [he] at h
    simp only [Option.some.injEq] at h
    exact ⟨[], by rw [← h]; simp⟩
  | ok resp =>
    rw [he] at h
    exact runLoop_appends_only toolExec fuel (fun n => endpoint (n + 1)) _ resp r h

/-- An endpoint that immediately produces a final answer. -/
def finalAnswerEndpoint : Nat → Except Unit ModelResponse :=
  fun _ => Except.ok ⟨StopReason.endTurn, [ContentBlock.text "All done!"]⟩

/-- C3 witness: the history-preservation theorem at a concrete run that
terminates with a final answer. -/
theorem processMediaRequest_preserves_history_witness :
    ∃ appended,
      (⟨"All done!",
        [Message.user "earlier turn", Message.user "hello",
         Message.assistant [ContentBlock.text "All done!"]]⟩ : AgentResponse).messages =
        ([Message.user "earlier turn"] ++ [Message.user "hello"]) ++ appended :=
  processMediaRequest_preserves_history stubToolExec finalAnswerEndpoint 5 "hello"
    [Message.user "earlier turn"]
    ⟨"All done!",
      [Message.user "earlier turn", Message.user "hello",
       Message.assistant [ContentBlock.text "All done!"]]⟩
    (by rfl)

/-! ## Session store (src/sessions.ts, `SessionManager`) -/

/-- A stored session: the message list and the `lastActivity` timestamp
(milliseconds, as `Date.now()`). -/
structure Session where
  messages : List Message
  lastActivity : Int
  deriving DecidableEq, Repr

def SESSION_TTL_MS : Int := 30 * 60 * 1000

/-- The `Map<string, Session>` of `SessionManager`, as an association
list with unique keys. -/
abbrev SessionStore := List (String × Session)

def storeGet (k : String) : SessionStore → Option Session
  | [] => none
  | (k', v) :: rest => if k' = k then some v else storeGet k rest

def storeSet (k : String) (v : Session) : SessionStore → SessionStore
  | [] => [(k, v)]
  | (k', v') :: rest =>
    if k' = k then (k, v) :: rest else (k', v') :: storeSet k v rest

def storeDelete (k : String) : SessionStore → SessionStore
  | [] => []
  | (k', v') :: rest => if k' = k then rest else (k', v') :: storeDelete k rest

/-- `SessionManager.get`: absent entry gives `undefined`; an entry older
than the TTL is deleted and gives `undefined`; otherwise the stored
message list is returned.  The returned store is the post-call state
(the lazy-expiry side effect). -/
def sessionGet (now : Int) (userId : String) (st : SessionStore) :
    Option (List Message) × SessionStore :=
  match storeGet userId st with
  | none => (none, st)
  | some s =>
    if now - s.lastActivity > SESSION_TTL_MS then
      (none, storeDelete userId st)
    else
      (some s.messages, st)

/-- `SessionManager.set`: always overwrites and stamps `lastActivity`
with the current time. -/
def sessionSet (now : Int) (userId : String) (messages : List Message)
    (st : SessionStore) : SessionStore :=
  storeSet userId ⟨messages, now⟩ st

theorem storeGet_storeSet_self (k : String) (v : Session) :
    ∀ st : SessionStore, storeGet k (storeSet k v st) = some v := by
  intro st
  induction st with
  | nil => simp [storeGet, storeSet]
  | cons kv rest ih =>
    by_cases h : kv.1 = k
    · simp [storeGet, storeSet, h]
    · simp [storeGet, storeSet, h, ih]

/-- C4: the session round-trip law up to TTL.  `get` is absent when no
entry exists; an entry whose age strictly exceeds the 30-minute TTL is
absent and deleted as a side effect; a `get` within the TTL window after
a `set` returns exactly the message list that `set` stored; and `set`
always overwrites the entry, resetting `lastActivity` to the `set`
time. -/
theorem sessionManager_get_set_spec (st : SessionStore) (uid : String)
    (msgs : List Message) (tset tnow : Int) :
    (storeGet uid st = none → sessionGet tnow uid st = (none, st)) ∧
    (∀ s, storeGet uid st = some s → tnow - s.lastActivity > SESSION_TTL_MS →
      sessionGet tnow uid st = (none, storeDelete uid st)) ∧
    (tnow - tset ≤ SESSION_TTL_MS →
      sessionGet tnow uid (sessionSet tset uid msgs st) =
        (some msgs, sessionSet tset uid msgs st)) ∧
    (tnow - tset > SESSION_TTL_MS →
      sessionGet tnow uid (sessionSet tset uid msgs st) =
        (none, storeDelete uid (sessionSet tset uid msgs st))) ∧
    storeGet uid (sessionSet tset uid msgs st) = some ⟨msgs, tset⟩ := by
  refine ⟨?_, ?_, ?_, ?_, ?_⟩
  · intro h
    simp [sessionGet, h]
  · intro s hs hexp
    simp [sessionGet, hs, hexp]
  · intro hfresh
    have hget := storeGet_storeSet_self uid (⟨msgs, tset⟩ : Session) st
    simp only [sessionGet, sessionSet, hget]
    rw [if_neg (by simpa using not_lt.mpr hfresh)]
  · intro hexp
    have hget := storeGet_storeSet_self uid (⟨msgs, tset⟩ : Session) st
    simp only [sessionGet, sessionSet, hget]
    rw [if_pos (by simpa using hexp)]
  · exact storeGet_storeSet_self uid ⟨msgs, tset⟩ st

/-- C4 witness: the round-trip law at a concrete store, key and pair of
timestamps inside the TTL window, together with the expiry case at a
timestamp beyond the window. -/
theorem sessionManager_get_set_spec_witness :
    sessionGet 1000000 "user42"
        (sessionSet 0 "user42" [Message.user "hi"]
          [("other", ⟨[Message.user "old"], 0⟩)]) =
      (some [Message.user "hi"],
        sessionSet 0 "user42" [Message.user "hi"]
          [("other", ⟨[Message.user "old"], 0⟩)]) ∧
    sessionGet 1800001 "user42"
        (sessionSet 0 "user42" [Message.user "hi"]
          [("other", ⟨[Message.user "old"], 0⟩)]) =
      (none,
        storeDelete "user42"
          (sessionSet 0 "user42" [Message.user "hi"]
            [("other", ⟨[Message.user "old"], 0⟩)])) :=
  ⟨(sessionManager_get_set_spec [("other", ⟨[Message.user "old"], 0⟩)] "user42"
      [Message.user "hi"] 0 1000000).2.2.1 (by decide),
   (sessionManager_get_set_spec [("other", ⟨[Message.user "old"], 0⟩)] "user42"
      [Message.user "hi"] 0 1800001).2.2.2.1 (by decide)⟩

/-! ## Year extraction (src/agent/index.ts, `parseYearFromQuery`) -/

def isWsChar (c : Char) : Bool := c.isWhitespace

def trimLeftChars (cs : List Char) : List Char := cs.dropWhile isWsChar

def trimRightChars (cs : List Char) : List Char :=
  (cs.reverse.dropWhile isWsChar).reverse

/-- `String.prototype.trim` on a character list. -/
def trimChars (cs : List Char) : List Char := trimRightChars (trimLeftChars cs)

/-- Pattern `/\((\d{4})\)\s*$/`: a parenthesized four-digit year, then
optional whitespace, at the end.  On success: the characters before the
match and the four year digits. -/
def matchParenYear (cs : List Char) : Option (List Char × List Char) :=
  match (trimRightChars cs).reverse with
  | ')' :: d4 :: d3 :: d2 :: d1 :: '(' :: pre =>
    if d1.isDigit && d2.isDigit && d3.isDigit && d4.isDigit then
      some (pre.reverse, [d1, d2, d3, d4])
    else none
  | _ => none

/-- Pattern `/\[(\d{4})\]\s*$/`. -/
def matchBracketYear (cs : List Char) : Option (List Char × List Char) :=
  match (trimRightChars cs).reverse with
  | ']' :: d4 :: d3 :: d2 :: d1 :: '[' :: pre =>
    if d1.isDigit && d2.isDigit && d3.isDigit && d4.isDigit then
      some (pre.reverse, [d1, d2, d3, d4])
    else none
  | _ => none

/-- Pattern `/\s*-\s*(\d{4})\s*$/`: a hyphen, optional whitespace on
both sides, then a four-digit year at the end. -/
def matchHyphenYear (cs : List Char) : Option (List Char × List Char) :=
  match (trimRightChars cs).reverse with
  | d4 :: d3 :: d2 :: d1 :: tail =>
    if d1.isDigit && d2.isDigit && d3.isDigit && d4.isDigit then
      match tail.dropWhile isWsChar with
      | '-' :: tail2 =>
        some ((tail2.dropWhile isWsChar).reverse, [d1, d2, d3, d4])
      | _ => none
    else none
  | _ => none

/-- Pattern `/\s+(\d{4})\s*$/`: at least one whitespace character, then
a four-digit year at the end. -/
def matchBareYear (cs : List Char) : Option (List Char × List Char) :=
  match (trimRightChars cs).reverse with
  | d4 :: d3 :: d2 :: d1 :: c :: tail =>
    if d1.isDigit && d2.isDigit && d3.isDigit && d4.isDigit && isWsChar c then
      some (((c :: tail).dropWhile isWsChar).reverse, [d1, d2, d3, d4])
    else none
  | _ => none

/-- `parseYearFromQuery`: try the four patterns in source order; on a
match, the title is the text before the match, trimmed, and the year is
the captured digits; otherwise the query is returned unchanged with no
year. -/
def parseYearFromQuery (query : String) : String × Option String :=
  match matchParenYear query.toList with
  | some (pre, y) => (String.mk (trimChars pre), some (String.mk y))
  | none =>
  match matchBracketYear query.toList with
  | some (pre, y) => (String.mk (trimChars pre), some (String.mk y))
  | none =>
  match matchHyphenYear query.toList with
  | some (pre, y) => (String.mk (trimChars pre), some (String.mk y))
  | none =>
  match matchBareYear query.toList with
  | some (pre, y) => (String.mk (trimChars pre), some (String.mk y))
  | none => (query, none)

/-- C5: year extraction strips a trailing embedded year, trying the
parenthesized, bracketed, hyphen-suffixed and bare-suffixed patterns in
that precedence order; `"Inception (2010)"` and `"Inception 2010"` both
give title `"Inception"` with year `"2010"` (likewise the bracket and
hyphen forms), and a query with no trailing year token such as
`"The Bear"` is returned unchanged with no year. -/
theorem parseYearFromQuery_spec :
    parseYearFromQuery "Inception (2010)" = ("Inception", some "2010") ∧
    parseYearFromQuery "Inception [2010]" = ("Inception", some "2010") ∧
    parseYearFromQuery "Inception - 2010" = ("Inception", some "2010") ∧
    parseYearFromQuery "Inception 2010" = ("Inception", some "2010") ∧
    parseYearFromQuery "The Bear" = ("The Bear", none) := by
  decide

/-! ## search_media (src/agent/index.ts, `handleSearchMedia`) -/

/-- Truthiness of an optional JS string: `undefined` and `""` are
falsy. -/
def strFalsy : Option String → Bool
  | none => true
  | some s => s == ""

/-- `a || dflt` for an optional JS string. -/
def jsOrStr (a : Option String) (dflt : String) : String :=
  if strFalsy a then dflt else a.getD ""

/-- A Seerr search result (the fields `handleSearchMedia` reads). -/
structure SearchResult where
  id : Nat
  mediaType : String
  title : Option String
  name : Option String
  releaseDate : Option String
  firstAirDate : Option String
  posterPath : Option String
  deriving DecidableEq, Repr

structure SearchResponse where
  totalResults : Nat
  results : List SearchResult
  deriving DecidableEq, Repr

/-- `(r.releaseDate || r.firstAirDate || "").slice(0, 4)`. -/
def resultYear (r : SearchResult) : String :=
  (jsOrStr r.releaseDate (jsOrStr r.firstAirDate "")).take 4

def isMovieOrTv (r : SearchResult) : Bool :=
  r.mediaType == "movie" || r.mediaType == "tv"

/-- Same-year matches first, then the rest, each group keeping its
original relative order. -/
def reorderByYear (targetYear : String) (rs : List SearchResult) :
    List SearchResult :=
  rs.filter (fun r => resultYear r == targetYear) ++
    rs.filter (fun r => !(resultYear r == targetYear))

/-- The filtered/reordered/truncated result list of `handleSearchMedia`. -/
def searchMediaResults (targetYear : Option String)
    (results : List SearchResult) : List SearchResult :=
  let mediaResults := results.filter isMovieOrTv
  let mediaResults :=
    match targetYear with
    | some y => reorderByYear y mediaResults
    | none => mediaResults
  mediaResults.take 10

def TMDB_IMAGE_BASE : String := "https://image.tmdb.org/t/p/w342"

def searchResultLine (i : Nat) (r : SearchResult) : String :=
  let resultTitle := jsOrStr r.title (jsOrStr r.name "Unknown")
  let yr := resultYear r
  let type := if r.mediaType == "movie" then "Movie" else "TV"
  let tmdbUrl := "https://www.themoviedb.org/" ++ r.mediaType ++ "/" ++ toString r.id
  toString (i + 1) ++ ". " ++ resultTitle ++ " (" ++ yr ++ ") - " ++ type ++
    " - TMDB:" ++ toString r.id ++ " - " ++ tmdbUrl

/-- The poster directive attached for the top result only (and only when
it has a truthy poster path). -/
def firstPosterTag (rs : List SearchResult) : String :=
  match rs.head? with
  | some r =>
    match r.posterPath with
    | some p => if p == "" then "" else "\n[POSTER:" ++ TMDB_IMAGE_BASE ++ p ++ "]"
    | none => ""
  | none => ""

def handleSearchMedia (query : String) (response : SearchResponse) : String :=
  let parsed := parseYearFromQuery query
  let title := parsed.1
  let targetYear := parsed.2
  if response.results.length = 0 then
    "No results found for \"" ++ title ++ "\". Try a different search term."
  else
    let mediaResults := searchMediaResults targetYear response.results
    let formatted := String.intercalate "\n"
      (mediaResults.enum.map fun ir => searchResultLine ir.1 ir.2)
    let firstPoster := firstPosterTag mediaResults
    let yearNote :=
      match targetYear with
      | some y => " (prioritizing " ++ y ++ ")"
      | none => ""
    "Found " ++ toString response.totalResults ++ " results" ++ yearNote ++
      ". Top matches:\n\n" ++ formatted ++ firstPoster

/-- C6: when a year was detected in the query, `search_media` puts the
movie/tv-filtered results whose release/first-air year equals the
detected year first, the rest after, each group in its original relative
order (a stable partition: both groups are sublists of the filtered
input and together a permutation of it), truncates to the first 10
entries, and — when the top result has a poster path — appends the
poster directive for that top result to the output. -/
theorem search_media_year_prioritization
    (query y : String) (response : SearchResponse)
    (hy : (parseYearFromQuery query).2 = some y)
    (hne : response.results ≠ []) :
    (∃ p q : List SearchResult,
      searchMediaResults (some y) response.results = (p ++ q).take 10
      ∧ (∀ r ∈ p, resultYear r = y)
      ∧ (∀ r ∈ q, resultYear r ≠ y)
      ∧ p.Sublist (response.results.filter isMovieOrTv)
      ∧ q.Sublist (response.results.filter isMovieOrTv)
      ∧ (p ++ q).Perm (response.results.filter isMovieOrTv))
    ∧ (searchMediaResults (some y) response.results).length ≤ 10
    ∧ (∀ r pp, (searchMediaResults (some y) response.results).head? = some r →
        r.posterPath = some pp → pp ≠ "" →
        ∃ pre, handleSearchMedia query response =
          pre ++ ("\n[POSTER:" ++ TMDB_IMAGE_BASE ++ pp ++ "]")) := by
  refine ⟨⟨(response.results.filter isMovieOrTv).filter (fun r => resultYear r == y),
    (response.results.filter isMovieOrTv).filter (fun r => !(resultYear r == y)),
    rfl, ?_, ?_, List.filter_sublist _, List.filter_sublist _,
    List.filter_append_perm _ _⟩, ?_, ?_⟩
  · intro r hr
    have := (List.mem_filter.mp hr).2
    simpa using this
  · intro r hr
    have := (List.mem_filter.mp hr).2
    simpa using this
  · simpa [searchMediaResults] using
      List.length_take_le 10 (reorderByYear y (response.results.filter isMovieOrTv))
  · intro r pp hhead hpp hppne
    have htag : firstPosterTag (searchMediaResults (some y) response.results) =
        "\n[POSTER:" ++ TMDB_IMAGE_BASE ++ pp ++ "]" := by
      simp only [firstPosterTag, hhead, hpp]
      rw [if_neg (by simpa using hppne)]
    obtain ⟨t, hpq⟩ : ∃ t, parseYearFromQuery query = (t, some y) := by
      refine ⟨(parseYearFromQuery query).1, ?_⟩
      rw [← hy]
    have hlen : ¬ response.results.length = 0 := by
      simpa [List.length_eq_zero] using hne
    refine ⟨"Found " ++ toString response.totalResults ++ " results" ++
      (" (prioritizing " ++ y ++ ")") ++ ". Top matches:\n\n" ++
      String.intercalate "\n"
        ((searchMediaResults (some y) response.results).enum.map
          fun ir => searchResultLine ir.1 ir.2), ?_⟩
    simp only [handleSearchMedia, hpq, if_neg hlen, htag]

def searchWitnessResults : List SearchResult :=
  [⟨27205, "movie", some "Inception", none, some "2010-07-15", none, some "/poster1.jpg"⟩,
   ⟨755, "movie", some "Inception Lite", none, some "2011-01-01", none, none⟩,
   ⟨99, "person", none, some "Someone", none, none, none⟩]

def searchWitnessResponse : SearchResponse := ⟨3, searchWitnessResults⟩

/-- C6 witness: the year-prioritization theorem at a concrete query and
search response. -/
theorem search_media_year_prioritization_witness :
    (∃ p q : List SearchResult,
      searchMediaResults (some "2010") searchWitnessResponse.results = (p ++ q).take 10
      ∧ (∀ r ∈ p, resultYear r = "2010")
      ∧ (∀ r ∈ q, resultYear r ≠ "2010")
      ∧ p.Sublist (searchWitnessResponse.results.filter isMovieOrTv)
      ∧ q.Sublist (searchWitnessResponse.results.filter isMovieOrTv)
      ∧ (p ++ q).Perm (searchWitnessResponse.results.filter isMovieOrTv))
    ∧ (searchMediaResults (some "2010") searchWitnessResponse.results).length ≤ 10
    ∧ (∀ r pp,
        (searchMediaResults (some "2010") searchWitnessResponse.results).head? = some r →
        r.posterPath = some pp → pp ≠ "" →
        ∃ pre, handleSearchMedia "Inception (2010)" searchWitnessResponse =
          pre ++ ("\n[POSTER:" ++ TMDB_IMAGE_BASE ++ pp ++ "]")) :=
  search_media_year_prioritization "Inception (2010)" "2010" searchWitnessResponse
    (by decide) (by decide)

/-! ## request_media (src/agent/index.ts, `handleRequestMedia`) -/

inductive MediaType
  | movie
  | tv
  deriving DecidableEq, Repr

structure RequestResponse where
  id : Nat
  status : Nat
  createdAt : String
  deriving DecidableEq, Repr

/-- The catalog-client calls `handleRequestMedia` can make, as a pure
oracle, plus the locale date renderer (`new Date(x).toLocaleString()`). -/
structure SeerrOps where
  requestMovie : Nat → RequestResponse
  requestTv : Nat → List Int → RequestResponse
  formatDate : String → String

/-- `getRequestStatusText` (src/utils.ts) over the numeric request
status enum. -/
def getRequestStatusText (status : Nat) : String :=
  if status = 1 then "Pending"
  else if status = 2 then "Approved"
  else if status = 3 then "Declined"
  else if status = 4 then "Failed"
  else if status = 5 then "Completed"
  else "Unknown"

def tvSeasonsError : String :=
  "Error: For TV shows, you must specify which seasons to request. Use get_media_details first to see available seasons."

/-- The TV-success text, with the list shown on the `Seasons requested`
line made explicit (`displayed`); the request itself is submitted with
the seasons as given. -/
def tvRequestTemplate (ops : SeerrOps) (tmdbId : Nat)
    (seasons displayed : List Int) : String :=
  let response := ops.requestTv tmdbId seasons
  "TV show request submitted successfully!\nRequest ID: " ++ toString response.id ++
    "\nSeasons requested: " ++ String.intercalate ", " (displayed.map toString) ++
    "\nStatus: " ++ getRequestStatusText response.status ++
    "\nCreated: " ++ ops.formatDate response.createdAt

def handleRequestMedia (ops : SeerrOps) (tmdbId : Nat) (mediaType : MediaType)
    (seasons : Option (List Int)) : String :=
  match mediaType with
  | .movie =>
    let response := ops.requestMovie tmdbId
    "Movie request submitted successfully!\nRequest ID: " ++ toString response.id ++
      "\nStatus: " ++ getRequestStatusText response.status ++
      "\nCreated: " ++ ops.formatDate response.createdAt
  | .tv =>
    match seasons with
    | none => tvSeasonsError
    | some ss =>
      if ss.length = 0 then tvSeasonsError
      else tvRequestTemplate ops tmdbId ss (List.insertionSort (· ≤ ·) ss)

/-- C7: a TV request with absent or empty seasons returns the specific
usage-error text, for every catalog oracle — the result does not depend
on the oracle at all, so no request is submitted; and for non-empty
seasons the `Seasons requested` line displays a sorted (ascending)
permutation of the submitted seasons. -/
theorem request_media_tv_seasons_spec (tmdbId : Nat) :
    (∀ ops : SeerrOps, handleRequestMedia ops tmdbId .tv none = tvSeasonsError)
    ∧ (∀ ops : SeerrOps, handleRequestMedia ops tmdbId .tv (some []) = tvSeasonsError)
    ∧ (∀ ops ops' : SeerrOps,
        handleRequestMedia ops tmdbId .tv none =
          handleRequestMedia ops' tmdbId .tv none
        ∧ handleRequestMedia ops tmdbId .tv (some []) =
            handleRequestMedia ops' tmdbId .tv (some []))
    ∧ (∀ ss : List Int, ss ≠ [] →
        ∃ displayed : List Int, displayed.Perm ss ∧ displayed.Sorted (· ≤ ·)
          ∧ ∀ ops : SeerrOps,
            handleRequestMedia ops tmdbId .tv (some ss) =
              tvRequestTemplate ops tmdbId ss displayed) := by
  refine ⟨fun ops => rfl, fun ops => rfl, fun ops ops' => ⟨rfl, rfl⟩, ?_⟩
  intro ss hss
  refine ⟨List.insertionSort (· ≤ ·) ss, List.perm_insertionSort _ _,
    List.sorted_insertionSort _ _, ?_⟩
  intro ops
  simp only [handleRequestMedia]
  rw [if_neg (by simpa using hss)]

def witnessOps : SeerrOps :=
  { requestMovie := fun _ => ⟨101, 1, "2026-01-01T00:00:00Z"⟩,
    requestTv := fun _ _ => ⟨202, 1, "2026-01-02T00:00:00Z"⟩,
    formatDate := fun s => s }

/-- C7 witness: the seasons specification at a concrete id, oracle and
season list. -/
theorem request_media_tv_seasons_spec_witness :
    handleRequestMedia witnessOps 1396 .tv none = tvSeasonsError ∧
    handleRequestMedia witnessOps 1396 .tv (some []) = tvSeasonsError ∧
    ∃ displayed : List Int, displayed.Perm [3, 1, 2] ∧ displayed.Sorted (· ≤ ·)
      ∧ ∀ ops : SeerrOps,
        handleRequestMedia ops 1396 .tv (some [3, 1, 2]) =
          tvRequestTemplate ops 1396 [3, 1, 2] displayed :=
  ⟨(request_media_tv_seasons_spec 1396).1 witnessOps,
   (request_media_tv_seasons_spec 1396).2.1 witnessOps,
   (request_media_tv_seasons_spec 1396).2.2.2 [3, 1, 2] (by decide)⟩

/-! ## Poster-section parsing (src/index.ts, `parseResponseSections`) -/

structure ResponseSection where
  text : String
  posterUrl : Option String
  deriving DecidableEq, Repr

/-- The fixed opening of a poster directive,
`/\[POSTER:(https:\/\/[^\]]+)\]/` up to the capture group's literal
part. -/
def posterOpen : List Char := "[POSTER:https://".toList

def startsWithChars : List Char → List Char → Bool
  | [], _ => true
  | _ :: _, [] => false
  | p :: ps, c :: cs => p == c && startsWithChars ps cs

/-- Match the poster-directive regex at the head of `cs`.  On success:
the captured url characters (`https://` plus at least one
non-`]` character) and the characters after the closing bracket.
The head of `dropWhile (· != ']')` is the closing bracket when the run
stops before the end of input. -/
def matchPosterAt (cs : List Char) : Option (List Char × List Char) :=
  if startsWithChars posterOpen cs then
    let body := cs.drop posterOpen.length
    let run := body.takeWhile (fun c => c != ']')
    let rest := body.dropWhile (fun c => c != ']')
    if run.length = 0 then none
    else
      match rest with
      | [] => none
      | _ :: rest2 => some ("https://".toList ++ run, rest2)
  else none

/-- Leftmost poster-directive match: the characters before it, the
captured url, and the characters after it. -/
def findPoster : List Char → Option (List Char × List Char × List Char)
  | [] => none
  | c :: rest =>
    match matchPosterAt (c :: rest) with
    | some (url, after) => some ([], url, after)
    | none =>
      match findPoster rest with
      | some (b, u, a) => some (c :: b, u, a)
      | none => none

theorem startsWithChars_length : ∀ ps cs : List Char,
    startsWithChars ps cs = true → ps.length ≤ cs.length := by
  intro ps
  induction ps with
  | nil => intro cs _; simp
  | cons p ps ih =>
    intro cs h
    cases cs with
    | nil => simp [startsWithChars] at h
    | cons c cs =>
      simp only [startsWithChars, Bool.and_eq_true] at h
      simpa using ih cs h.2

theorem matchPosterAt_after_lt (cs url after : List Char)
    (h : matchPosterAt cs = some (url, after)) : after.length < cs.length := by
  unfold matchPosterAt at h
  by_cases hs : startsWithChars posterOpen cs = true
  · rw [if_pos hs] at h
    have hlen : posterOpen.length ≤ cs.length := startsWithChars_length _ _ hs
    by_cases hrun :
        ((cs.drop posterOpen.length).takeWhile (fun c => c != ']')).length = 0
    · rw [if_pos hrun] at h
      simp at h
    · rw [if_neg hrun] at h
      rcases hrest : (cs.drop posterOpen.length).dropWhile (fun c => c != ']') with
        _ | ⟨c, rest2⟩
      · rw [hrest] at h
        simp at h
      · rw [hrest] at h
        simp only [Option.some.injEq, Prod.mk.injEq] at h
        obtain ⟨-, hafter⟩ := h
        have hd : ((cs.drop posterOpen.length).dropWhile (fun c => c != ']')).length ≤
            (cs.drop posterOpen.length).length :=
          (List.dropWhile_sublist _).length_le
        rw [hrest] at hd
        have hbody : (cs.drop posterOpen.length).length =
            cs.length - posterOpen.length := List.length_drop _ _
        have hop : posterOpen.length = 16 := rfl
        subst hafter
        simp only [List.length_cons] at hd
        omega
  · rw [if_neg hs] at h
    simp at h

theorem findPoster_after_lt : ∀ cs b u a : List Char,
    findPoster cs = some (b, u, a) → a.length < cs.length := by
  intro cs
  induction cs with
  | nil => intro b u a h; simp [findPoster] at h
  | cons c rest ih =>
    intro b u a h
    unfold findPoster at h
    rcases hm : matchPosterAt (c :: rest) with _ | ⟨url, after⟩
    · rw [hm] at h
      rcases hf : findPoster rest with _ | ⟨b2, u2, a2⟩
      · rw [hf] at h
        simp at h
      · rw [hf] at h
        simp only [Option.some.injEq, Prod.mk.injEq] at h
        obtain ⟨-, -, ha⟩ := h
        subst ha
        have := ih b2 u2 a2 hf
        simp only [List.length_cons]
        omega
    · rw [hm] at h
      simp only [Option.some.injEq, Prod.mk.injEq] at h
      obtain ⟨-, -, ha⟩ := h
      subst ha
      exact matchPosterAt_after_lt (c :: rest) url after hm

/-- All poster-directive matches from left to right (the `matchAll`
scan): the list of (text-before-match, url) pairs and the text after
the last match.  The fuel is an upper bound on the number of matches;
each match consumes at least one character, so the input length
suffices. -/
def allPostersFuel : Nat → List Char → List (List Char × List Char) × List Char
  | 0, cs => ([], cs)
  | fuel + 1, cs =>
    match findPoster cs with
    | none => ([], cs)
    | some (b, u, a) =>
      let res := allPostersFuel fuel a
      ((b, u) :: res.1, res.2)

def allPosters (cs : List Char) : List (List Char × List Char) × List Char :=
  allPostersFuel cs.length cs

/-- `parseResponseSections`: no directive — the whole trimmed text is
one section with no poster; exactly one — the text with the directive
removed, paired with its url; two or more — each directive is paired
with the text before it (empty pieces skipped), a trailing remainder
becomes a posterless section, and sections of at most 50 characters
with no poster are dropped. -/
def parseResponseSections (text : String) : List ResponseSection :=
  let scanned := allPosters text.toList
  let pairs := scanned.1
  let trail := scanned.2
  match pairs with
  | [] => [⟨String.mk (trimChars text.toList), none⟩]
  | [(before, url)] =>
    [⟨String.mk (trimChars (before ++ trail)), some (String.mk url)⟩]
  | _ =>
    let secs := pairs.filterMap fun bu =>
      let t := String.mk (trimChars bu.1)
      if t = "" then none
      else some (⟨t, some (String.mk bu.2)⟩ : ResponseSection)
    let trailStr := String.mk (trimChars trail)
    let secs2 := if trailStr = "" then secs else secs ++ [⟨trailStr, none⟩]
    secs2.filter fun s => decide (50 < s.text.length) || s.posterUrl.isSome

/-- C8: the two-directive example splits into exactly two sections, each
pairing the text before a directive with that directive's url, in
original order; with zero or exactly one directive the whole text is one
section; and with two or more directives every surviving posterless
section is longer than 50 characters. -/
theorem parseResponseSections_spec :
    parseResponseSections
        "Header text [POSTER:https://x/a.jpg] more text [POSTER:https://x/b.jpg]" =
      [⟨"Header text", some "https://x/a.jpg"⟩,
       ⟨"more text", some "https://x/b.jpg"⟩] ∧
    (∀ text : String, (allPosters text.toList).1.length ≤ 1 →
      (parseResponseSections text).length = 1) ∧
    (∀ text : String, 2 ≤ (allPosters text.toList).1.length →
      ∀ s ∈ parseResponseSections text, s.posterUrl = none →
        50 < s.text.length) := by
  refine ⟨by decide, ?_, ?_⟩
  · intro text hlen
    rw [show text.toList = text.data from rfl] at hlen
    rcases hap : allPosters text.data with ⟨pairs, trail⟩
    rw [hap] at hlen
    simp only at hlen
    match pairs, hlen with
    | [], _ => simp [parseResponseSections, hap]
    | [(b, u)], _ => simp [parseResponseSections, hap]
    | (b, u) :: (b2, u2) :: rest, h => simp at h
  · intro text hlen s hs hnone
    rw [show text.toList = text.data from rfl] at hlen
    rcases hap : allPosters text.data with ⟨pairs, trail⟩
    rw [hap] at hlen
    simp only at hlen
    match pairs, hlen with
    | [], h => simp at h
    | [x], h => simp at h
    | x :: y :: rest, _ =>
      have hap2 : allPosters text.toList = (x :: y :: rest, trail) := hap
      simp only [parseResponseSections, hap, hap2] at hs
      have hmem := (List.mem_filter.mp hs).2
      rw [hnone] at hmem
      simpa using hmem

def posterWitnessText : String :=
  "Intro [POSTER:https://x/a.jpg] mid [POSTER:https://x/b.jpg] " ++
    "this trailing section has plenty of characters to exceed the fifty limit"

set_option maxRecDepth 8192 in
/-- C8 witness: the section-parsing specification applied at concrete
texts — a text with no directive parses to one section, and in a
two-directive text the surviving posterless trailing section is longer
than 50 characters. -/
theorem parseResponseSections_spec_witness :
    (parseResponseSections "just plain text").length = 1 ∧
    50 < ("this trailing section has plenty of characters to exceed the fifty limit" : String).length :=
  ⟨parseResponseSections_spec.2.1 "just plain text" (by decide),
   parseResponseSections_spec.2.2 posterWitnessText (by decide)
     ⟨"this trailing section has plenty of characters to exceed the fifty limit", none⟩
     (by decide) rfl⟩

/-! ## Text chunking (src/index.ts, the plain-text send loop) -/

def DISCORD_LIMIT : Nat := 2000

def MIN_BREAK : Nat := 1000

/-- `remaining.lastIndexOf(ch, fromIdx)`: the largest index `i ≤ fromIdx`
with `cs[i] = ch`, if any. -/
def lastIndexOfLe (ch : Char) (cs : List Char) (fromIdx : Nat) : Option Nat :=
  (cs.take (fromIdx + 1)).enum.foldl
    (fun acc ic => if ic.2 == ch then some ic.1 else acc) none

/-- Break-point selection: the last newline at or before the limit, else
the last space, else a hard cut at the limit; a break point earlier than
`MIN_BREAK` is rejected. -/
def chunkBreakPoint (remaining : List Char) : Nat :=
  let bp1 := lastIndexOfLe '\n' remaining DISCORD_LIMIT
  let bp2 :=
    match bp1 with
    | some i =>
      if i < MIN_BREAK then lastIndexOfLe ' ' remaining DISCORD_LIMIT else some i
    | none => lastIndexOfLe ' ' remaining DISCORD_LIMIT
  match bp2 with
  | some i => if i < MIN_BREAK then DISCORD_LIMIT else i
  | none => DISCORD_LIMIT

/-- The chunking `while` loop: emit the text up to the break point and
continue with the trimmed rest.  Each iteration removes at least
`MIN_BREAK` characters, so fuel equal to the input length never runs
out. -/
def chunkLoop : Nat → List Char → List (List Char)
  | _, [] => []
  | 0, remaining => [remaining]
  | fuel + 1, remaining =>
    if remaining.length ≤ DISCORD_LIMIT then [remaining]
    else
      let bp := chunkBreakPoint remaining
      remaining.take bp :: chunkLoop fuel (trimChars (remaining.drop bp))

def splitIntoChunks (text : String) : List String :=
  (chunkLoop text.toList.length text.toList).map String.mk

theorem foldl_lastIndex_le (ch : Char) (k : Nat) :
    ∀ (l : List (Nat × Char)) (acc : Option Nat),
      (∀ j, acc = some j → j ≤ k) → (∀ p ∈ l, p.1 ≤ k) →
      ∀ i, l.foldl (fun acc ic => if ic.2 == ch then some ic.1 else acc) acc = some i →
        i ≤ k := by
  intro l
  induction l with
  | nil =>
    intro acc hacc _ i h
    exact hacc i h
  | cons p l ih =>
    intro acc hacc hl i h
    simp only [List.foldl_cons] at h
    refine ih _ ?_ (fun q hq => hl q (by simp [hq])) i h
    intro j hj
    by_cases hc : (p.2 == ch) = true
    · rw [if_pos hc] at hj
      simp only [Option.some.injEq] at hj
      subst hj
      exact hl p (by simp)
    · rw [if_neg hc] at hj
      exact hacc j hj

theorem lastIndexOfLe_le (ch : Char) (cs : List Char) (k i : Nat)
    (h : lastIndexOfLe ch cs k = some i) : i ≤ k := by
  refine foldl_lastIndex_le ch k _ none (by simp) ?_ i h
  intro p hp
  have h1 := List.mem_enum_iff_getElem?.mp hp
  have h2 : p.1 < (cs.take (k + 1)).length := by
    rcases List.getElem?_eq_some.mp h1 with ⟨hlt, -⟩
    exact hlt
  have h3 : (cs.take (k + 1)).length ≤ k + 1 := by
    simp [List.length_take]
  omega

theorem chunkBreakPoint_le (remaining : List Char) :
    chunkBreakPoint remaining ≤ DISCORD_LIMIT := by
  unfold chunkBreakPoint
  rcases h1 : lastIndexOfLe '\n' remaining DISCORD_LIMIT with _ | i
  · rcases h2 : lastIndexOfLe ' ' remaining DISCORD_LIMIT with _ | j
    · simp
    · have := lastIndexOfLe_le ' ' remaining DISCORD_LIMIT j h2
      by_cases hj : j < MIN_BREAK <;> simp [hj, this]
  · by_cases hi : i < MIN_BREAK
    · simp only [if_pos hi]
      rcases h2 : lastIndexOfLe ' ' remaining DISCORD_LIMIT with _ | j
      · simp
      · have := lastIndexOfLe_le ' ' remaining DISCORD_LIMIT j h2
        by_cases hj : j < MIN_BREAK <;> simp [hj, this]
    · have := lastIndexOfLe_le '\n' remaining DISCORD_LIMIT i h1
      simp [hi, this]

theorem chunkBreakPoint_ge (remaining : List Char) :
    MIN_BREAK ≤ chunkBreakPoint remaining := by
  have h12 : MIN_BREAK ≤ DISCORD_LIMIT := by decide
  unfold chunkBreakPoint
  rcases h1 : lastIndexOfLe '\n' remaining DISCORD_LIMIT with _ | i
  · rcases h2 : lastIndexOfLe ' ' remaining DISCORD_LIMIT with _ | j
    · simpa using h12
    · by_cases hj : j < MIN_BREAK
      · simpa [hj] using h12
      · simpa [hj] using not_lt.mp hj
  · by_cases hi : i < MIN_BREAK
    · simp only [if_pos hi]
      rcases h2 : lastIndexOfLe ' ' remaining DISCORD_LIMIT with _ | j
      · simpa using h12
      · by_cases hj : j < MIN_BREAK
        · simpa [hj] using h12
        · simpa [hj] using not_lt.mp hj
    · simpa [hi] using not_lt.mp hi

theorem trimLeftChars_length_le (cs : List Char) :
    (trimLeftChars cs).length ≤ cs.length :=
  (List.dropWhile_sublist _).length_le

theorem trimRightChars_length_le (cs : List Char) :
    (trimRightChars cs).length ≤ cs.length := by
  unfold trimRightChars
  calc ((cs.reverse.dropWhile isWsChar).reverse).length
      = (cs.reverse.dropWhile isWsChar).length := by simp
    _ ≤ cs.reverse.length := (List.dropWhile_sublist _).length_le
    _ = cs.length := by simp

theorem trimChars_length_le (cs : List Char) :
    (trimChars cs).length ≤ cs.length :=
  le_trans (trimRightChars_length_le _) (trimLeftChars_length_le _)

theorem chunkLoop_length_le :
    ∀ (fuel : Nat) (remaining : List Char),
      remaining.length ≤ fuel + DISCORD_LIMIT →
      ∀ c ∈ chunkLoop fuel remaining, c.length ≤ DISCORD_LIMIT := by
  intro fuel
  induction fuel with
  | zero =>
    intro remaining h c hc
    cases remaining with
    | nil => simp [chunkLoop] at hc
    | cons a l =>
      simp only [chunkLoop, List.mem_singleton] at hc
      subst hc
      simpa using h
  | succ fuel ih =>
    intro remaining h c hc
    cases remaining with
    | nil => simp [chunkLoop] at hc
    | cons a l =>
      by_cases hlen : (a :: l).length ≤ DISCORD_LIMIT
      · simp only [chunkLoop, if_pos hlen, List.mem_singleton] at hc
        subst hc
        exact hlen
      · simp only [chunkLoop, if_neg hlen, List.mem_cons] at hc
        rcases hc with rfl | hc
        · calc ((a :: l).take (chunkBreakPoint (a :: l))).length
              ≤ chunkBreakPoint (a :: l) := by
                simp [List.length_take]
            _ ≤ DISCORD_LIMIT := chunkBreakPoint_le _
        · refine ih (trimChars ((a :: l).drop (chunkBreakPoint (a :: l)))) ?_ c hc
          have hd : ((a :: l).drop (chunkBreakPoint (a :: l))).length =
              (a :: l).length - chunkBreakPoint (a :: l) := List.length_drop _ _
          have ht := trimChars_length_le ((a :: l).drop (chunkBreakPoint (a :: l)))
          have hbp := chunkBreakPoint_ge (a :: l)
          have : MIN_BREAK = 1000 := rfl
          have : DISCORD_LIMIT = 2000 := rfl
          omega

/-- Interleave chunks with separator strings:
`c1 ++ s1 ++ c2 ++ s2 ++ …`. -/
def glue : List (List Char) → List (List Char) → List Char
  | [], _ => []
  | c :: cs, [] => c ++ glue cs []
  | c :: cs, s :: ss => c ++ s ++ glue cs ss

/-- Append extra characters to the last separator. -/
def appendLastSep (w : List Char) : List (List Char) → List (List Char)
  | [] => []
  | [s] => [s ++ w]
  | s :: ss => s :: appendLastSep w ss

theorem length_appendLastSep (w : List Char) :
    ∀ ss : List (List Char), (appendLastSep w ss).length = ss.length := by
  intro ss
  induction ss with
  | nil => simp [appendLastSep]
  | cons s ss ih =>
    cases ss with
    | nil => simp [appendLastSep]
    | cons s2 ss2 => simpa [appendLastSep] using ih

theorem mem_appendLastSep_ws (w : List Char) (hw : ∀ ch ∈ w, isWsChar ch = true) :
    ∀ ss : List (List Char), (∀ s ∈ ss, ∀ ch ∈ s, isWsChar ch = true) →
      ∀ s ∈ appendLastSep w ss, ∀ ch ∈ s, isWsChar ch = true := by
  intro ss
  induction ss with
  | nil =>
    intro _ s hs
    simp [appendLastSep] at hs
  | cons s0 ss ih =>
    intro hss s hs ch hch
    cases ss with
    | nil =>
      simp only [appendLastSep, List.mem_singleton] at hs
      subst hs
      rcases List.mem_append.mp hch with h | h
      · exact hss s0 (by simp) ch h
      · exact hw ch h
    | cons s2 ss2 =>
      simp only [appendLastSep, List.mem_cons] at hs
      rcases hs with rfl | hs
      · exact hss s (by simp) ch hch
      · exact ih (fun t ht => hss t (by simp [ht])) s hs ch hch

theorem glue_appendLastSep (w : List Char) :
    ∀ (cs ss : List (List Char)), ss.length = cs.length → cs ≠ [] →
      glue cs (appendLastSep w ss) = glue cs ss ++ w := by
  intro cs
  induction cs with
  | nil => intro ss _ hne; exact absurd rfl hne
  | cons c cs ih =>
    intro ss hlen _
    cases ss with
    | nil => simp at hlen
    | cons s ss =>
      cases cs with
      | nil =>
        cases ss with
        | nil => simp [appendLastSep, glue]
        | cons s2 ss2 => simp at hlen
      | cons c2 cs2 =>
        cases ss with
        | nil => simp at hlen
        | cons s2 ss2 =>
          have hlen2 : (s2 :: ss2).length = (c2 :: cs2).length := by
            simpa using hlen
          simp only [appendLastSep, glue]
          rw [ih (s2 :: ss2) hlen2 (by simp)]
          simp [glue, List.append_assoc]

theorem right_trim_decomposition (l : List Char) :
    l = trimRightChars l ++ (l.reverse.takeWhile isWsChar).reverse := by
  unfold trimRightChars
  conv_lhs => rw [← List.reverse_reverse l]
  rw [← List.takeWhile_append_dropWhile (p := isWsChar) (l := l.reverse)]
  rw [List.reverse_append]
  simp

theorem exists_trim_decomposition (cs : List Char) :
    ∃ w1 w2 : List Char,
      (∀ ch ∈ w1, isWsChar ch = true) ∧ (∀ ch ∈ w2, isWsChar ch = true) ∧
      cs = w1 ++ (trimChars cs ++ w2) := by
  refine ⟨cs.takeWhile isWsChar,
    ((trimLeftChars cs).reverse.takeWhile isWsChar).reverse, ?_, ?_, ?_⟩
  · intro ch hch
    exact List.mem_takeWhile_imp hch
  · intro ch hch
    rw [List.mem_reverse] at hch
    exact List.mem_takeWhile_imp hch
  · conv_lhs => rw [← List.takeWhile_append_dropWhile (p := isWsChar) (l := cs)]
    congr 1
    exact right_trim_decomposition (trimLeftChars cs)

/-- `chunks` reassemble `orig`: there is one whitespace-only separator
string per chunk (the characters the chosen break points and trims
removed) such that interleaving restores the original text. -/
def Reassembles (chunks : List (List Char)) (orig : List Char) : Prop :=
  ∃ seps : List (List Char), seps.length = chunks.length ∧
    (∀ s ∈ seps, ∀ ch ∈ s, isWsChar ch = true) ∧ glue chunks seps = orig

theorem chunkLoop_reassembles :
    ∀ (fuel : Nat) (remaining : List Char),
      Reassembles (chunkLoop fuel remaining) remaining := by
  intro fuel
  induction fuel with
  | zero =>
    intro remaining
    cases remaining with
    | nil => exact ⟨[], by simp [chunkLoop], by simp, by simp [chunkLoop, glue]⟩
    | cons a l =>
      exact ⟨[[]], by simp [chunkLoop], by simp, by simp [chunkLoop, glue]⟩
  | succ fuel ih =>
    intro remaining
    cases remaining with
    | nil => exact ⟨[], by simp [chunkLoop], by simp, by simp [chunkLoop, glue]⟩
    | cons a l =>
      by_cases hlen : (a :: l).length ≤ DISCORD_LIMIT
      · have hlenS : l.length + 1 ≤ DISCORD_LIMIT := by simpa using hlen
        exact ⟨[[]], by simp [chunkLoop, hlenS], by simp,
          by simp [chunkLoop, hlenS, glue]⟩
      · have hstep : chunkLoop (fuel + 1) (a :: l) =
            (a :: l).take (chunkBreakPoint (a :: l)) ::
              chunkLoop fuel (trimChars ((a :: l).drop (chunkBreakPoint (a :: l)))) := by
          simp only [chunkLoop]
          rw [if_neg (show ¬ (a :: l).length ≤ DISCORD_LIMIT from hlen)]
        obtain ⟨seps, hslen, hsws, hglue⟩ :=
          ih (trimChars ((a :: l).drop (chunkBreakPoint (a :: l))))
        obtain ⟨w1, w2, hw1, hw2, hdecomp⟩ :=
          exists_trim_decomposition ((a :: l).drop (chunkBreakPoint (a :: l)))
        cases hchunks : chunkLoop fuel
            (trimChars ((a :: l).drop (chunkBreakPoint (a :: l)))) with
        | nil =>
          rw [hchunks] at hglue hslen
          have hseps : seps = [] := List.eq_nil_of_length_eq_zero (by simpa using hslen)
          subst hseps
          have hrest : trimChars ((a :: l).drop (chunkBreakPoint (a :: l))) = [] := by
            simpa [glue] using hglue.symm
          refine ⟨[w1 ++ w2], ?_, ?_, ?_⟩
          · rw [hstep, hchunks]
            simp
          · intro s hs ch hch
            simp only [List.mem_singleton] at hs
            subst hs
            rcases List.mem_append.mp hch with h | h
            · exact hw1 ch h
            · exact hw2 ch h
          · rw [hstep, hchunks]
            simp only [glue]
            conv_rhs => rw [← List.take_append_drop (chunkBreakPoint (a :: l)) (a :: l),
              hdecomp]
            rw [hrest]
            simp
        | cons c2 cs2 =>
          rw [hchunks] at hglue hslen
          refine ⟨w1 :: appendLastSep w2 seps, ?_, ?_, ?_⟩
          · rw [hstep, hchunks]
            simp [length_appendLastSep, hslen]
          · intro s hs
            simp only [List.mem_cons] at hs
            rcases hs with rfl | hs
            · exact hw1
            · exact mem_appendLastSep_ws w2 hw2 seps hsws s hs
          · rw [hstep, hchunks]
            simp only [glue]
            rw [glue_appendLastSep w2 (c2 :: cs2) seps (by simpa using hslen) (by simp)]
            rw [hglue]
            conv_rhs => rw [← List.take_append_drop (chunkBreakPoint (a :: l)) (a :: l),
              hdecomp]
            simp [List.append_assoc]

/-- C9: for every 4500-character input with no newlines, the chunking
loop produces chunks each at most the 2000-character platform limit, and
the original text is recovered by interleaving the chunks with the
(whitespace-only) separator characters removed at the chosen break
points — no non-whitespace content is lost or reordered. -/
theorem chunking_spec (text : String)
    (hlen : text.length = 4500)
    (hnl : ∀ c ∈ text.toList, c ≠ '\n') :
    (∀ chunk ∈ splitIntoChunks text, chunk.length ≤ DISCORD_LIMIT) ∧
    ∃ seps : List (List Char),
      seps.length = (splitIntoChunks text).length ∧
      (∀ s ∈ seps, ∀ ch ∈ s, isWsChar ch = true) ∧
      glue ((splitIntoChunks text).map String.toList) seps = text.toList := by
  have hmk : ∀ l : List Char, (String.mk l).toList = l := fun _ => rfl
  constructor
  · intro chunk hchunk
    simp only [splitIntoChunks, List.mem_map] at hchunk
    obtain ⟨c, hc, rfl⟩ := hchunk
    have := chunkLoop_length_le text.toList.length text.toList (by omega) c hc
    simpa [String.length] using this
  · obtain ⟨seps, h1, h2, h3⟩ := chunkLoop_reassembles text.toList.length text.toList
    refine ⟨seps, ?_, h2, ?_⟩
    · simpa [splitIntoChunks] using h1
    · rw [splitIntoChunks, List.map_map]
      have hcomp : (String.toList ∘ String.mk) =
          (id : List Char → List Char) := by
        funext l
        exact hmk l
      rw [hcomp, List.map_id]
      exact h3

def chunkWitnessText : String := String.mk (List.replicate 4500 'a')

/-- C9 witness: the chunking specification at a concrete 4500-character
newline-free input. -/
theorem chunking_spec_witness :
    (∀ chunk ∈ splitIntoChunks chunkWitnessText, chunk.length ≤ DISCORD_LIMIT) ∧
    ∃ seps : List (List Char),
      seps.length = (splitIntoChunks chunkWitnessText).length ∧
      (∀ s ∈ seps, ∀ ch ∈ s, isWsChar ch = true) ∧
      glue ((splitIntoChunks chunkWitnessText).map String.toList) seps =
        chunkWitnessText.toList :=
  chunking_spec chunkWitnessText
    (by
      rw [show chunkWitnessText.length = (List.replicate 4500 'a').length from rfl,
        List.length_replicate])
    (by
      intro c hc
      have hc2 : c = 'a' := List.eq_of_mem_replicate hc
      subst hc2
      decide)

/-! ## Ratings and media formatting (src/agent/index.ts `formatRTScore`,
src/utils.ts `formatMediaResult`) -/

/-- A Rotten Tomatoes rating (the fields `formatRTScore` reads); scores
are integer percentages, absent fields are `none`. -/
structure RTRating where
  url : Option String
  criticsScore : Option Nat
  audienceScore : Option Nat
  deriving DecidableEq, Repr

/-- `formatRTScore`: each score line is built only when the score is
truthy (`0` and `undefined` are both falsy in the source); the Rotten
Tomatoes line appears only when at least one part exists, followed by
the url when truthy. -/
def formatRTScore (rt : RTRating) : List String :=
  let critics :=
    match rt.criticsScore with
    | some n => if n = 0 then none else some (toString n ++ "% Critics")
    | none => none
  let audience :=
    match rt.audienceScore with
    | some n => if n = 0 then none else some (toString n ++ "% Audience")
    | none => none
  let rtParts := String.intercalate " / " (([critics, audience]).filterMap id)
  if rtParts = "" then []
  else
    let withScore := ["Rotten Tomatoes: " ++ rtParts]
    match rt.url with
    | some u => if u = "" then withScore else withScore ++ ["  " ++ u]
    | none => withScore

/-- `result.overview` truncation (`truncateOverview`): empty or absent
overview falls back, overviews beyond 200 characters are cut with an
ellipsis. -/
def truncateOverview (overview : String) : String :=
  if overview = "" then "No overview available."
  else if overview.length ≤ 200 then overview
  else overview.take 200 ++ "..."

/-- A discover/list item (the fields `formatMediaResult` reads);
`voteAverage` is in tenths of a rating point, so `toFixed(1)` is exact
integer arithmetic. -/
structure DiscoverResult where
  id : Nat
  title : Option String
  name : Option String
  releaseDate : Option String
  firstAirDate : Option String
  overview : String
  posterPath : Option String
  voteAverage : Nat
  deriving DecidableEq, Repr

/-- `voteAverage.toFixed(1)` for a tenths-scaled value. -/
def toFixed1 (v : Nat) : String := toString (v / 10) ++ "." ++ toString (v % 10)

structure FormatOptions where
  showMediaType : Bool := false
  useFullDate : Bool := false
  deriving DecidableEq, Repr

/-- The shared numbered block for all list-of-media tools, with the
string shown on the `Rating:` line made explicit. -/
def formatMediaResultRating (r : DiscoverResult) (index : Nat)
    (mediaType : MediaType) (opts : FormatOptions) (rating : String) : String :=
  let title := jsOrStr r.title (jsOrStr r.name "Unknown")
  let dateField :=
    match mediaType with
    | .movie => r.releaseDate
    | .tv => r.firstAirDate
  let dateDisplay :=
    if opts.useFullDate then jsOrStr dateField "TBA"
    else
      let y := (jsOrStr dateField "").take 4
      if y = "" then "TBA" else y
  let typeLabel :=
    if opts.showMediaType then
      match mediaType with
      | .movie => " - Movie"
      | .tv => " - TV"
    else ""
  let kindSegment :=
    match mediaType with
    | .movie => "movie"
    | .tv => "tv"
  let tmdbUrl := "https://www.themoviedb.org/" ++ kindSegment ++ "/" ++ toString r.id
  let overview := truncateOverview r.overview
  let poster :=
    match r.posterPath with
    | some p => if p = "" then "" else "\n[POSTER:" ++ TMDB_IMAGE_BASE ++ p ++ "]"
    | none => ""
  toString (index + 1) ++ ". " ++ title ++ " (" ++ dateDisplay ++ ")" ++ typeLabel ++
    "\nRating: " ++ rating ++ "\n" ++ tmdbUrl ++ "\n\n" ++ overview ++ poster

/-- `formatMediaResult` (src/utils.ts): the `Rating:` line shows
`voteAverage.toFixed(1)` out of 10 when the vote average is truthy,
and `N/A` when it is `0`. -/
def formatMediaResult (r : DiscoverResult) (index : Nat) (mediaType : MediaType)
    (opts : FormatOptions) : String :=
  formatMediaResultRating r index mediaType opts
    (if r.voteAverage = 0 then "N/A" else toFixed1 r.voteAverage ++ "/10")

/-- C10: a zero critics or audience score in `get_ratings` output is
rendered exactly as if the field were absent (the score part is
omitted), and a zero aggregate rating in the shared list-of-media block
renders the `Rating:` line as `N/A` — the rendered output never shows a
zero score, for every input record. -/
theorem zero_scores_render_as_absent :
    (∀ rt : RTRating, formatRTScore { rt with criticsScore := some 0 } =
      formatRTScore { rt with criticsScore := none }) ∧
    (∀ rt : RTRating, formatRTScore { rt with audienceScore := some 0 } =
      formatRTScore { rt with audienceScore := none }) ∧
    (∀ (r : DiscoverResult) (index : Nat) (mediaType : MediaType)
        (opts : FormatOptions), r.voteAverage = 0 →
      formatMediaResult r index mediaType opts =
        formatMediaResultRating r index mediaType opts "N/A") := by
  refine ⟨fun rt => rfl, fun rt => rfl, ?_⟩
  intro r index mediaType opts hv
  simp [formatMediaResult, hv]

/-- C10 witness: the zero-score theorem at concrete records. -/
theorem zero_scores_render_as_absent_witness :
    formatRTScore ⟨some "https://rt.example/x", some 0, some 85⟩ =
      formatRTScore ⟨some "https://rt.example/x", none, some 85⟩ ∧
    formatMediaResult ⟨603, some "The Matrix", none, some "1999-03-31", none,
        "A hacker discovers reality is a simulation.", some "/m.jpg", 0⟩ 0
        .movie {} =
      formatMediaResultRating ⟨603, some "The Matrix", none, some "1999-03-31", none,
        "A hacker discovers reality is a simulation.", some "/m.jpg", 0⟩ 0
        .movie {} "N/A" :=
  ⟨zero_scores_render_as_absent.1 ⟨some "https://rt.example/x", none, some 85⟩,
   zero_scores_render_as_absent.2.2
     ⟨603, some "The Matrix", none, some "1999-03-31", none,
       "A hacker discovers reality is a simulation.", some "/m.jpg", 0⟩ 0
     .movie {} rfl⟩

end SeerrBot
